import Mathlib

/-
Verification of the coverage dataset module (src/janggo/data/coverage.py).

The development shallowly embeds the module: the genomic interval value
type, the chromosome/strand/condition indexed coverage store, the two
loader routines (bam_loader, bigwig_loader) and the CoverageDataset
facade with its index normalization, flank padding, strand flipping,
shape and flank validation.  Collaborator components that are not part
of the given source (the genomic array store, the genomic indexer, the
transformation chain of the Dataset base class, and the pysam/pyBigWig
readers) are modelled from the specification; each such definition says
so in its doc comment.
-/

/-- Genomic interval value: chromosome name, start, end and strand.
The Python attribute named end is called stop here (end is a Lean
keyword).  Padded intervals may have a negative start, hence Int. -/
structure GenomicInterval where
  chrom : String
  start : Int
  stop : Int
  strand : Char
deriving DecidableEq, Repr

/-- Coverage store map: chromosome name, strand character, absolute
base position and condition index to a stored value. -/
def CovStore (α : Type) : Type := String → Char → Int → Nat → α

/-- Modelled from the spec: the store is allocated zero-initialized. -/
def zeroStore {α : Type} [Zero α] : CovStore α := fun _ _ _ _ => 0

/-- Modelled from the spec: write of a values array covering positions
from start (inclusive) to stop (exclusive) of one chromosome, one
strand and one condition; all other entries are left unchanged. -/
def storeWrite {α : Type} (st : CovStore α) (chrom : String) (strand : Char)
    (start stop : Int) (ci : Nat) (vals : Int → α) : CovStore α :=
  fun ch s p c =>
    if ch = chrom ∧ s = strand ∧ c = ci ∧ start ≤ p ∧ p < stop then vals (p - start)
    else st ch s p c

/-- Strand axis of a stranded store has the two strands, an unstranded
store a single unstranded slot. -/
def strandList (stranded : Bool) : List Char := if stranded then ['+', '-'] else ['.']

/-- One retrieved window: positions, then strand axis, then condition axis. -/
abbrev Window : Type := List (List (List Rat))

/-- A batch of windows as returned by CoverageDataset.getitem. -/
abbrev Batch : Type := List Window

/-- The genomic array object held in the covers attribute: strandedness
flag, ordered condition list and the stored values. -/
structure GenomicArray where
  stranded : Bool
  condition : List String
  value : CovStore Rat

/-- Modelled from the spec: read returns a dense numeric slice of shape
(interval.length, strand_dim, num_conditions) for the given absolute
coordinates, for all conditions and (if stranded) both strands. -/
def GenomicArray.read (c : GenomicArray) (iv : GenomicInterval) : Window :=
  (List.range (iv.stop - iv.start).toNat).map fun (p : Nat) =>
    (strandList c.stranded).map fun s =>
      (List.range c.condition.length).map fun ci =>
        c.value iv.chrom s (iv.start + (p : Int)) ci

/-- Modelled from the spec: the region indexer maps an integer index to
an interval over a fixed enumeration with a fixed bin size; its length
is the length of that enumeration. -/
structure GenomicIndexer where
  binsize : Nat
  intervals : List GenomicInterval

/-- Modelled from the spec: indexer lookup is defined exactly on the
valid index range, from 0 (inclusive) to the length (exclusive). -/
def GenomicIndexer.get (g : GenomicIndexer) (i : Int) : Option GenomicInterval :=
  if 0 ≤ i then g.intervals[i.toNat]? else none

/-- Python scalar values, as far as the flank setter distinguishes
them: an int, a non-integer number, a string, or None. -/
inductive PyScalar where
  | pyint : Int → PyScalar
  | pyfloat : Rat → PyScalar
  | pystr : String → PyScalar
  | pynone : PyScalar
deriving DecidableEq, Repr

/-- Embeds the flank setter: raise unless the value is an int and
non-negative, else store the value unchanged in the _flank slot. -/
def flank_setter : PyScalar → Except String Int
  | .pyint v => if v < 0 then .error "_flank must be a non-negative integer" else .ok v
  | _ => .error "_flank must be a non-negative integer"

/-- The CoverageDataset facade: covers store, region indexer, validated
flank, strandedness flag and (modelled from the spec) the transform
chain of the Dataset base class, applied in registration order. -/
structure CoverageDataset where
  covers : GenomicArray
  gindexer : GenomicIndexer
  flank : Nat
  stranded : Bool
  transformations : List (Batch → Batch)

/-- Embeds the constructor: the flank assignment validates through the
setter, so construction fails on a bad flank before any query. -/
def CoverageDataset.init (covers : GenomicArray) (gindexer : GenomicIndexer)
    (flank : PyScalar) (stranded : Bool) : Except String CoverageDataset :=
  match flank_setter flank with
  | .error e => .error e
  | .ok v => .ok ⟨covers, gindexer, v.toNat, stranded, []⟩

/-- Embeds len of the dataset: the length of the region indexer. -/
def CoverageDataset.len (ds : CoverageDataset) : Nat := ds.gindexer.intervals.length

/-- Embeds the shape property: (len(self), 2*flank + binsize,
2 if stranded else 1, len(covers.condition)). -/
def CoverageDataset.shape (ds : CoverageDataset) : Nat × Nat × Nat × Nat :=
  (ds.len, 2 * ds.flank + ds.gindexer.binsize,
    if ds.stranded then 2 else 1, ds.covers.condition.length)

/-- The index argument of getitem, as far as the code distinguishes it:
an int, a slice (optional start, stop, step), an iterable of integers,
or a non-iterable object of any other kind. -/
inductive IdxArg where
  | int : Int → IdxArg
  | slice : Option Int → Option Int → Option Int → IdxArg
  | list : List Int → IdxArg
  | noniterable : IdxArg

/-- Python truthiness choice x if x else d for an optional integer:
None and 0 both select the default. -/
def pyOrElse (v : Option Int) (d : Int) : Int :=
  match v with
  | none => d
  | some x => if x = 0 then d else x

/-- Python range(a, b, step) as a list of integers. -/
def pyRange (a b step : Int) : List Int :=
  if 0 < step then
    (List.range (((b - a).toNat + (step.toNat - 1)) / step.toNat)).map fun (k : Nat) =>
      a + step * (k : Int)
  else if step < 0 then
    (List.range (((a - b).toNat + ((-step).toNat - 1)) / (-step).toNat)).map fun (k : Nat) =>
      a + step * (k : Int)
  else []

/-- Embeds the index normalization of getitem: an int is wrapped into a
one-element list, a slice is expanded with range over defaults 0, the
dataset length and 1, an iterable is taken as is, anything else raises
IndexError before any lookup. -/
def normalizeIdxs (n : Nat) : IdxArg → Except String (List Int)
  | .int i => .ok [i]
  | .slice a b c =>
      .ok (pyRange (pyOrElse a 0) (pyOrElse b (n : Int)) (pyOrElse c 1))
  | .list l => .ok l
  | .noniterable => .error "CoverageDataset.__getitem__: index must be iterable"

/-- Reversal of one window along the positional axis and the strand
axis; the condition axis inside each row is untouched. -/
def reverseWindow (w : Window) : Window := (w.map fun row => row.reverse).reverse

/-- Embeds the loop body of getitem for one index: fetch the interval,
pad an explicit copy by the flank on both sides, read the dense window
from the store, and flip it when the interval is on the minus strand. -/
def CoverageDataset.readOne (ds : CoverageDataset) (idx : Int) : Option Window :=
  match ds.gindexer.get idx with
  | none => none
  | some interval =>
    let pinterval : GenomicInterval :=
      { interval with
        start := interval.start - (ds.flank : Int),
        stop := interval.stop + (ds.flank : Int) }
    let d := ds.covers.read pinterval
    if interval.strand = '-' then some (reverseWindow d) else some d

/-- The loop of getitem over the normalized indices, in order; a
failed indexer lookup aborts the whole call, as the raised error
propagates. -/
def CoverageDataset.readAll (ds : CoverageDataset) : List Int → Option Batch
  | [] => some []
  | i :: rest =>
    match ds.readOne i, ds.readAll rest with
    | some w, some ws => some (w :: ws)
    | _, _ => none

/-- Embeds getitem: normalize the index argument, read one window per
index in order, then apply the registered transforms to the batch. -/
def CoverageDataset.getitem (ds : CoverageDataset) (idxs : IdxArg) : Except String Batch :=
  match normalizeIdxs ds.len idxs with
  | .error e => .error e
  | .ok l =>
    match ds.readAll l with
    | none => .error "region indexer: index out of range"
    | some ws => .ok (ds.transformations.foldl (fun b t => t b) ws)

/-- One alignment record, as far as bam_loader inspects it: mapping
quality, orientation, reference start, and optional reference end. -/
structure AlnRecord where
  mapq : Nat
  is_reverse : Bool
  reference_start : Nat
  reference_end : Option Nat
deriving DecidableEq, Repr

/-- One alignment file, modelled by its fetch operation: the record
list of a chromosome, or none when fetch raises ValueError because the
contig is absent from the file. -/
def AlnFile : Type := String → Option (List AlnRecord)

/-- The position a record is counted at: the start for a forward
record; for a reverse record the end minus one, falling back to the
start when the end is undefined (None or 0, by Python truthiness). -/
def bamPos (aln : AlnRecord) : Nat :=
  if aln.is_reverse then
    match aln.reference_end with
    | some e => if e = 0 then aln.reference_start else e - 1
    | none => aln.reference_start
  else aln.reference_start

/-- One iteration of the record loop of bam_loader: skip the record if
its mapping quality is below the threshold, else increment the forward
or reverse count at its position. -/
def bamStep (min_mapq : Nat) (arr : Int → Nat × Nat) (aln : AlnRecord) : Int → Nat × Nat :=
  if aln.mapq < min_mapq then arr
  else fun p =>
    if p = (bamPos aln : Int) then
      (if aln.is_reverse then ((arr p).1, (arr p).2 + 1) else ((arr p).1 + 1, (arr p).2))
    else arr p

/-- The dense two-column per-base count array built by bam_loader for
one chromosome of one file, starting from zeros. -/
def bamCounts (min_mapq : Nat) (recs : List AlnRecord) : Int → Nat × Nat :=
  recs.foldl (bamStep min_mapq) (fun _ => (0, 0))

/-- The chromosome loop of bam_loader for one file with condition index
i: a chromosome absent from the file (fetch raises ValueError) is
caught and skipped, otherwise the accumulated count columns are written
as two full-chromosome-length writes, plus strand then minus strand. -/
def bamFileLoad (genomesize : List (String × Nat)) (min_mapq : Nat) (f : AlnFile)
    (i : Nat) (cover : CovStore Nat) : CovStore Nat :=
  match genomesize with
  | [] => cover
  | (chrom, clen) :: rest =>
    bamFileLoad rest min_mapq f i
      (match f chrom with
       | none => cover
       | some recs =>
         let arr := bamCounts min_mapq recs
         storeWrite
           (storeWrite cover chrom '+' 0 (clen : Int) i (fun p => (arr p).1))
           chrom '-' 0 (clen : Int) i (fun p => (arr p).2))

/-- The file loop of bam_loader, carrying the enumeration index. -/
def bamFilesLoad (genomesize : List (String × Nat)) (min_mapq : Nat)
    (files : List AlnFile) (i : Nat) (cover : CovStore Nat) : CovStore Nat :=
  match files with
  | [] => cover
  | f :: rest => bamFilesLoad genomesize min_mapq rest (i + 1)
      (bamFileLoad genomesize min_mapq f i cover)

/-- Embeds bam_loader over a zero-initialized or given store. -/
def bam_loader (genomesize : List (String × Nat)) (min_mapq : Nat)
    (files : List AlnFile) (cover : CovStore Nat) : CovStore Nat :=
  bamFilesLoad genomesize min_mapq files 0 cover

/-- One bigwig file, modelled by its per-base signal value. -/
def BigWigFile : Type := String → Int → Rat

/-- The values of a bigwig file over the exact coordinates from start
(inclusive) to stop (exclusive) of one chromosome. -/
def bwValues (bw : BigWigFile) (chrom : String) (a b : Int) : List Rat :=
  (List.range (b - a).toNat).map fun (k : Nat) => bw chrom (a + (k : Int))

/-- The region loop of bigwig_loader for one file with condition index
i: for each region of the indexer, in order, write the sum of the
signal over the exact region coordinates as one scalar at the anchor
position (the length-1 interval at the region start), unstranded. -/
def bigwigRegions (bw : BigWigFile) (i : Nat) (ivs : List GenomicInterval)
    (cover : CovStore Rat) : CovStore Rat :=
  match ivs with
  | [] => cover
  | iv :: rest =>
    bigwigRegions bw i rest
      (storeWrite cover iv.chrom '.' iv.start (iv.start + 1) i
        (fun _ => (bwValues bw iv.chrom iv.start iv.stop).sum))

/-- The file loop of bigwig_loader, carrying the enumeration index. -/
def bigwigFilesLoad (files : List BigWigFile) (i : Nat) (gindexer : GenomicIndexer)
    (cover : CovStore Rat) : CovStore Rat :=
  match files with
  | [] => cover
  | bw :: rest =>
    bigwigFilesLoad rest (i + 1) gindexer (bigwigRegions bw i gindexer.intervals cover)

/-- Embeds bigwig_loader over a zero-initialized or given store. -/
def bigwig_loader (files : List BigWigFile) (gindexer : GenomicIndexer)
    (cover : CovStore Rat) : CovStore Rat :=
  bigwigFilesLoad files 0 gindexer cover

/-- Read of an interval cell from an object heap, with a default. -/
def heapRead (heap : List GenomicInterval) (d : GenomicInterval) (r : Nat) : GenomicInterval :=
  (heap[r]?).getD d

/-- Heap-level embedding of the padding steps of getitem, making
object identity explicit.  The heap holds the intervals owned by the
region indexer and r is the reference returned by the indexer lookup.
The copy allocates a fresh cell at the end of the heap; the two field
assignments write that fresh cell, reading start and end from the cell
the indexer returned.  Returns the new heap and the reference to the
padded interval. -/
def padIntervalHeap (heap : List GenomicInterval) (flank : Nat) (r : Nat) :
    Option (List GenomicInterval × Nat) :=
  match heap[r]? with
  | none => none
  | some interval0 =>
    let p := heap.length
    let h1 := heap ++ [interval0]
    let h2 := h1.set p
      { heapRead h1 interval0 p with
        start := (heapRead h1 interval0 r).start - (flank : Int) }
    let h3 := h2.set p
      { heapRead h2 interval0 p with
        stop := (heapRead h2 interval0 r).stop + (flank : Int) }
    some (h3, p)

/-- Shape check for one window: np positions, ns strand slots, nc
conditions. -/
def winShapeOk (w : Window) (np ns nc : Nat) : Bool :=
  w.length == np && w.all fun row => row.length == ns && row.all fun v => v.length == nc

/-- Shape check for a batch of n windows. -/
def batchShapeOk (b : Batch) (n np ns nc : Nat) : Bool :=
  b.length == n && b.all fun w => winShapeOk w np ns nc

/-- A small concrete stranded dataset used by the witnesses: one
condition, two bins of size 50, flank 2, no transforms. -/
def exampleArray : GenomicArray := ⟨true, ["sample1"], fun _ _ p _ => (p : Rat)⟩

/-- Concrete region indexer with a plus-strand and a minus-strand bin. -/
def exampleIndexer : GenomicIndexer :=
  ⟨50, [⟨"chr1", 100, 150, '+'⟩, ⟨"chr1", 200, 250, '-'⟩]⟩

/-- Concrete dataset over the example array and indexer. -/
def exampleDs : CoverageDataset := ⟨exampleArray, exampleIndexer, 2, true, []⟩

/-- Length of the strand axis: 2 when stranded, else 1. -/
theorem strandList_length (b : Bool) : (strandList b).length = if b then 2 else 1 := by
  cases b <;> rfl

/-- C6: len of the dataset equals the region indexer length, and the
shape property is (length, 2*flank + binsize, 2 if stranded else 1,
num_conditions), computed independently of the stored values, hence
without any read of the coverage store. -/
theorem c6_len_shape (ds : CoverageDataset) :
    ds.len = ds.gindexer.intervals.length ∧
    ds.shape = (ds.len, 2 * ds.flank + ds.gindexer.binsize,
      (if ds.stranded then 2 else 1), ds.covers.condition.length) ∧
    (∀ v : CovStore Rat,
      (CoverageDataset.mk ⟨ds.covers.stranded, ds.covers.condition, v⟩
        ds.gindexer ds.flank ds.stranded ds.transformations).shape = ds.shape) :=
  ⟨rfl, rfl, fun _ => rfl⟩

/-- C3: getitem normalizes its index argument: a single integer is
wrapped into a length-1 list; a slice expands with default start 0,
the dataset length as the implicit upper bound when no stop is given,
and default step 1; an iterable of integers passes through unchanged;
any non-iterable argument yields the IndexError message demanding
iterability, for every dataset, hence before any store access. -/
theorem c3_index_normalization (n : Nat) :
    (∀ i : Int, normalizeIdxs n (.int i) = .ok [i]) ∧
    (∀ a c, normalizeIdxs n (.slice a none c) =
      .ok (pyRange (pyOrElse a 0) (n : Int) (pyOrElse c 1))) ∧
    (∀ b c, normalizeIdxs n (.slice none b c) =
      .ok (pyRange 0 (pyOrElse b (n : Int)) (pyOrElse c 1))) ∧
    (∀ a b, normalizeIdxs n (.slice a b none) =
      .ok (pyRange (pyOrElse a 0) (pyOrElse b (n : Int)) 1)) ∧
    (∀ l, normalizeIdxs n (.list l) = .ok l) ∧
    (∀ ds : CoverageDataset, ds.getitem .noniterable =
      .error "CoverageDataset.__getitem__: index must be iterable") :=
  ⟨fun _ => rfl, fun _ _ => rfl, fun _ _ => rfl, fun _ _ => rfl,
    fun _ => rfl, fun _ => rfl⟩

/-- C4: the flank setter errors exactly when the value is not a
non-negative integer; a non-negative integer is stored unchanged; and
a setter error makes construction fail with the same error, before any
query can happen. -/
theorem c4_flank_validation :
    (∀ v : PyScalar, (∃ n : Int, v = .pyint n ∧ 0 ≤ n) ↔ (∃ n, flank_setter v = .ok n)) ∧
    (∀ n : Int, 0 ≤ n → flank_setter (.pyint n) = .ok n) ∧
    (∀ covers gindexer stranded v e, flank_setter v = .error e →
      CoverageDataset.init covers gindexer v stranded = .error e) := by
  refine ⟨fun v => ⟨?_, ?_⟩, fun n hn => ?_, fun covers gindexer stranded v e he => ?_⟩
  · rintro ⟨n, rfl, hn⟩
    exact ⟨n, by simp [flank_setter, not_lt.mpr hn]⟩
  · rintro ⟨n, hok⟩
    cases v with
    | pyint m =>
      refine ⟨m, rfl, ?_⟩
      by_contra hneg
      push_neg at hneg
      simp [flank_setter, hneg] at hok
    | pyfloat q => simp [flank_setter] at hok
    | pystr s => simp [flank_setter] at hok
    | pynone => simp [flank_setter] at hok
  · simp [flank_setter, not_lt.mpr hn]
  · simp [CoverageDataset.init, he]

/-- Witness for C4 at concrete inputs: flank 3 is accepted and stored,
and construction with flank -1 fails with the setter error. -/
theorem c4_flank_validation_witness :
    flank_setter (.pyint 3) = .ok 3 ∧
    CoverageDataset.init exampleArray exampleIndexer (.pyint (-1)) true =
      .error "_flank must be a non-negative integer" :=
  ⟨c4_flank_validation.2.1 3 (by decide),
    c4_flank_validation.2.2 exampleArray exampleIndexer true (.pyint (-1)) _ rfl⟩

/-- C10: getitem on an empty list of indices succeeds with the empty
batch (first dimension 0), for every dataset without transforms, hence
for every store and indexer content: nothing is read. -/
theorem c10_empty_indices (ds : CoverageDataset) (h : ds.transformations = []) :
    ds.getitem (.list []) = .ok [] ∧
    batchShapeOk [] 0 (2 * ds.flank + ds.gindexer.binsize)
      (if ds.stranded then 2 else 1) ds.covers.condition.length = true := by
  constructor
  · have h1 : ds.getitem (.list []) =
        .ok (ds.transformations.foldl (fun b t => t b) []) := rfl
    rw [h1, h]
    rfl
  · rfl

/-- Witness for C10 on the concrete example dataset. -/
theorem c10_empty_indices_witness :
    exampleDs.getitem (.list []) = .ok [] :=
  (c10_empty_indices exampleDs rfl).1

/-- Setting the cell one past a list appended with one element
replaces exactly that element. -/
theorem set_append_singleton {α : Type} (l : List α) (x y : α) :
    (l ++ [x]).set l.length y = l ++ [y] := by
  induction l with
  | nil => rfl
  | cons a t ih => simp [List.set, ih]

/-- Computation of the heap-level padding: the result heap is the old
heap extended with the freshly allocated padded copy. -/
theorem padIntervalHeap_eq (heap : List GenomicInterval) (flank : Nat) (r : Nat)
    (iv : GenomicInterval) (hiv : heap[r]? = some iv) (hr : r < heap.length) :
    padIntervalHeap heap flank r =
      some (heap ++ [{ iv with start := iv.start - (flank : Int),
                               stop := iv.stop + (flank : Int) }], heap.length) := by
  unfold padIntervalHeap
  rw [hiv]
  simp only [heapRead, List.getElem?_concat_length, set_append_singleton,
    List.getElem?_append_left hr, hiv, Option.getD_some]

/-- C5: the padding step of getitem pads an explicit copy: on the
object heap owned by the region indexer, the fetched cell and every
other indexer-owned cell are unchanged after the call, and the fresh
cell holds the interval with the start decreased and the end increased
by the flank, chromosome and strand intact. -/
theorem c5_no_indexer_mutation (heap : List GenomicInterval) (flank : Nat) (r : Nat)
    (hr : r < heap.length) :
    ∃ h2 p iv, heap[r]? = some iv ∧
      padIntervalHeap heap flank r = some (h2, p) ∧
      (∀ j, j < heap.length → h2[j]? = heap[j]?) ∧
      h2[p]? = some { iv with start := iv.start - (flank : Int),
                              stop := iv.stop + (flank : Int) } := by
  obtain ⟨iv, hiv⟩ : ∃ iv, heap[r]? = some iv := ⟨_, List.getElem?_eq_getElem hr⟩
  refine ⟨_, _, iv, hiv, padIntervalHeap_eq heap flank r iv hiv hr, ?_, ?_⟩
  · intro j hj
    exact List.getElem?_append_left hj
  · exact List.getElem?_concat_length _ _

/-- Witness for C5 on a one-interval heap with flank 5. -/
theorem c5_no_indexer_mutation_witness :
    ∃ h2 p iv,
      ([GenomicInterval.mk "chr1" 10 60 '+'] : List GenomicInterval)[0]? = some iv ∧
      padIntervalHeap [GenomicInterval.mk "chr1" 10 60 '+'] 5 0 = some (h2, p) ∧
      (∀ j, j < ([GenomicInterval.mk "chr1" 10 60 '+'] : List GenomicInterval).length →
        h2[j]? = ([GenomicInterval.mk "chr1" 10 60 '+'] : List GenomicInterval)[j]?) ∧
      h2[p]? = some { iv with start := iv.start - ((5 : Nat) : Int),
                              stop := iv.stop + ((5 : Nat) : Int) } :=
  c5_no_indexer_mutation [GenomicInterval.mk "chr1" 10 60 '+'] 5 0 (by decide)

/-- The flank-padded copy of an interval. -/
def paddedInterval (iv : GenomicInterval) (flank : Nat) : GenomicInterval :=
  { iv with start := iv.start - (flank : Int), stop := iv.stop + (flank : Int) }

/-- readOne on a successfully fetched interval: read the padded copy,
flipped when the interval lies on the minus strand. -/
theorem readOne_eq (ds : CoverageDataset) (i : Int) (iv : GenomicInterval)
    (hget : ds.gindexer.get i = some iv) :
    ds.readOne i = if iv.strand = '-'
      then some (reverseWindow (ds.covers.read (paddedInterval iv ds.flank)))
      else some (ds.covers.read (paddedInterval iv ds.flank)) := by
  unfold CoverageDataset.readOne
  rw [hget]
  rfl

/-- The store read depends only on the coordinates of the interval,
never on its strand field. -/
theorem read_strand_irrel (c : GenomicArray) (iv : GenomicInterval) (s : Char) :
    c.read { iv with strand := s } = c.read iv := rfl

/-- C2: for a minus-strand interval the returned window equals the
window read for the same flank-padded coordinates on the plus strand,
reversed along both the positional axis and the strand axis; windows
of other strands are returned unreversed; and the reversal law is the
pointwise one: row j of the reversed window is row (length-1-j) of the
original with its strand slots reversed and each condition list kept
as is. -/
theorem c2_strand_flip (ds : CoverageDataset) (idx : Int) (interval : GenomicInterval)
    (hget : ds.gindexer.get idx = some interval) :
    (interval.strand = '-' →
      ds.readOne idx = some (reverseWindow (ds.covers.read
        ⟨interval.chrom, interval.start - (ds.flank : Int),
          interval.stop + (ds.flank : Int), '+'⟩))) ∧
    (interval.strand ≠ '-' →
      ds.readOne idx = some (ds.covers.read
        ⟨interval.chrom, interval.start - (ds.flank : Int),
          interval.stop + (ds.flank : Int), interval.strand⟩)) ∧
    (∀ (w : Window) (j : Nat), j < w.length →
      (reverseWindow w)[j]? = (w[w.length - 1 - j]?).map List.reverse) := by
  refine ⟨fun hs => ?_, fun hs => ?_, fun w j hj => ?_⟩
  · rw [readOne_eq ds idx interval hget, if_pos hs]
    rfl
  · rw [readOne_eq ds idx interval hget, if_neg hs]
    rfl
  · have hj2 : j < (w.map fun row => row.reverse).length := by
      simpa using hj
    rw [reverseWindow, List.getElem?_reverse hj2, List.length_map,
      List.getElem?_map]

/-- Witness for C2 on the minus-strand bin of the example dataset. -/
theorem c2_strand_flip_witness :
    exampleDs.readOne 1 = some (reverseWindow (exampleDs.covers.read
      ⟨"chr1", (200 : Int) - ((2 : Nat) : Int), (250 : Int) + ((2 : Nat) : Int), '+'⟩)) :=
  (c2_strand_flip exampleDs 1 ⟨"chr1", 200, 250, '-'⟩ (by decide)).1 rfl

/-- Shape of a raw store read: interval length positions, one row per
strand slot, one entry per condition. -/
theorem read_shape (c : GenomicArray) (iv : GenomicInterval) :
    winShapeOk (c.read iv) (iv.stop - iv.start).toNat
      (strandList c.stranded).length c.condition.length = true := by
  simp only [winShapeOk, GenomicArray.read, Bool.and_eq_true, beq_iff_eq,
    List.all_eq_true, List.length_map, List.length_range]
  refine ⟨by simp, fun row hrow => ?_⟩
  obtain ⟨p, hp, rfl⟩ := List.mem_map.mp hrow
  refine ⟨by simp, fun v hv => ?_⟩
  obtain ⟨s, hs, rfl⟩ := List.mem_map.mp hv
  simp

/-- Reversal along the positional and strand axes preserves the shape. -/
theorem reverseWindow_shape (w : Window) (np ns nc : Nat)
    (h : winShapeOk w np ns nc = true) :
    winShapeOk (reverseWindow w) np ns nc = true := by
  simp only [winShapeOk, Bool.and_eq_true, beq_iff_eq, List.all_eq_true] at h ⊢
  obtain ⟨h1, h2⟩ := h
  constructor
  · simpa [reverseWindow] using h1
  · intro row hrow
    have hrow2 : row ∈ w.map fun r => r.reverse :=
      List.mem_reverse.mp (by simpa [reverseWindow] using hrow)
    obtain ⟨r, hr, rfl⟩ := List.mem_map.mp hrow2
    obtain ⟨hlen, hall⟩ := h2 r hr
    exact ⟨by simpa using hlen, fun v hv => hall v (List.mem_reverse.mp hv)⟩

/-- For a valid index of an indexer whose intervals all have the bin
size as length, readOne yields a window of the windowed shape. -/
theorem readOne_some_shape (ds : CoverageDataset) (i : Int)
    (hi : 0 ≤ i) (hlen : i.toNat < ds.len)
    (hbin : ∀ iv ∈ ds.gindexer.intervals,
      iv.stop - iv.start = (ds.gindexer.binsize : Int)) :
    ∃ w, ds.readOne i = some w ∧
      winShapeOk w (2 * ds.flank + ds.gindexer.binsize)
        (strandList ds.covers.stranded).length ds.covers.condition.length = true := by
  obtain ⟨iv, hiv⟩ : ∃ iv, ds.gindexer.intervals[i.toNat]? = some iv :=
    ⟨_, List.getElem?_eq_getElem hlen⟩
  have hmem : iv ∈ ds.gindexer.intervals := by
    obtain ⟨hj, rfl⟩ := List.getElem?_eq_some.mp hiv
    exact List.getElem_mem hj
  have hget : ds.gindexer.get i = some iv := by
    unfold GenomicIndexer.get
    rw [if_pos hi, hiv]
  have hb := hbin iv hmem
  have hlenwin : ((paddedInterval iv ds.flank).stop -
      (paddedInterval iv ds.flank).start).toNat = 2 * ds.flank + ds.gindexer.binsize := by
    simp only [paddedInterval]
    omega
  have hr := read_shape ds.covers (paddedInterval iv ds.flank)
  rw [hlenwin] at hr
  rw [readOne_eq ds i iv hget]
  by_cases hstr : iv.strand = '-'
  · rw [if_pos hstr]
    exact ⟨_, rfl, reverseWindow_shape _ _ _ _ hr⟩
  · rw [if_neg hstr]
    exact ⟨_, rfl, hr⟩

/-- The read loop succeeds on a list of valid indices and yields one
correctly shaped window per index, in order. -/
theorem readAll_shape (ds : CoverageDataset)
    (hbin : ∀ iv ∈ ds.gindexer.intervals,
      iv.stop - iv.start = (ds.gindexer.binsize : Int)) :
    ∀ l : List Int, (∀ i ∈ l, 0 ≤ i ∧ i.toNat < ds.len) →
    ∃ ws : Batch, ds.readAll l = some ws ∧ ws.length = l.length ∧
      ∀ w ∈ ws, winShapeOk w (2 * ds.flank + ds.gindexer.binsize)
        (strandList ds.covers.stranded).length ds.covers.condition.length = true := by
  intro l
  induction l with
  | nil => exact fun _ => ⟨[], rfl, rfl, by simp⟩
  | cons a t ih =>
    intro hv
    obtain ⟨w, hw, hsh⟩ := readOne_some_shape ds a
      (hv a (List.mem_cons_self a t)).1 (hv a (List.mem_cons_self a t)).2 hbin
    obtain ⟨ws, hws, hlen, hall⟩ := ih (fun i hi => hv i (List.mem_cons_of_mem a hi))
    refine ⟨w :: ws, ?_, by simp [hlen], ?_⟩
    · show (match ds.readOne a, ds.readAll t with
        | some w, some ws => some (w :: ws)
        | _, _ => none) = some (w :: ws)
      rw [hw, hws]
    · intro x hx
      rcases List.mem_cons.mp hx with h | h
      · exact h ▸ hsh
      · exact hall x h

/-- C1: with no registered transforms, getitem on a list of valid
indices returns a batch of shape (number of indices, 2*flank + binsize,
2 if stranded else 1, num_conditions); in particular a single valid
index yields first dimension 1.  The hypotheses record that the region
indexer enumerates bins of the bin size and that the dataset and its
store agree on strandedness, as in both construction paths. -/
theorem c1_getitem_shape (ds : CoverageDataset) (l : List Int)
    (htr : ds.transformations = [])
    (hst : ds.covers.stranded = ds.stranded)
    (hbin : ∀ iv ∈ ds.gindexer.intervals,
      iv.stop - iv.start = (ds.gindexer.binsize : Int))
    (hvalid : ∀ i ∈ l, 0 ≤ i ∧ i.toNat < ds.len) :
    ∃ b : Batch, ds.getitem (.list l) = .ok b ∧
      batchShapeOk b l.length (2 * ds.flank + ds.gindexer.binsize)
        (if ds.stranded then 2 else 1) ds.covers.condition.length = true := by
  obtain ⟨ws, hws, hlen, hall⟩ := readAll_shape ds hbin l hvalid
  refine ⟨ws, ?_, ?_⟩
  · have h1 : ds.getitem (.list l) =
        match ds.readAll l with
        | none => .error "region indexer: index out of range"
        | some ws => .ok (ds.transformations.foldl (fun b t => t b) ws) := rfl
    rw [h1, hws, htr]
    rfl
  · simp only [batchShapeOk, Bool.and_eq_true, beq_iff_eq, List.all_eq_true]
    refine ⟨hlen, fun w hw => ?_⟩
    have := hall w hw
    rwa [hst, strandList_length] at this

/-- Witness for C1 on the two-bin example dataset: both valid indices,
batch shape (2, 54, 2, 1). -/
theorem c1_getitem_shape_witness :
    ∃ b : Batch, exampleDs.getitem (.list [0, 1]) = .ok b ∧
      batchShapeOk b 2 54 2 1 = true :=
  c1_getitem_shape exampleDs [0, 1] rfl rfl (by decide) (by decide)

/-- Characterization of the record loop: after folding the records
over a starting array, the entry at p carries, per strand column, the
starting value plus the number of records that pass the mapping
quality filter, have that orientation, and are counted at p. -/
theorem bamCounts_foldl (m : Nat) (recs : List AlnRecord) :
    ∀ (arr : Int → Nat × Nat) (p : Int),
      (recs.foldl (bamStep m) arr) p =
        ((arr p).1 + (recs.filter fun a =>
            decide (m ≤ a.mapq) && !a.is_reverse && decide ((bamPos a : Int) = p)).length,
         (arr p).2 + (recs.filter fun a =>
            decide (m ≤ a.mapq) && a.is_reverse && decide ((bamPos a : Int) = p)).length) := by
  induction recs with
  | nil => intro arr p; simp
  | cons a t ih =>
    intro arr p
    rw [List.foldl_cons, ih]
    by_cases hq : a.mapq < m
    · have h1 : bamStep m arr a = arr := by simp [bamStep, hq]
      have hd : decide (m ≤ a.mapq) = false := decide_eq_false (Nat.not_le.mpr hq)
      simp [h1, List.filter_cons, hd]
    · have hq2 : m ≤ a.mapq := Nat.not_lt.mp hq
      have hd : decide (m ≤ a.mapq) = true := decide_eq_true hq2
      by_cases hp : (bamPos a : Int) = p
      · cases hrev : a.is_reverse
        · simp [bamStep, hq, hrev, ← hp, List.filter_cons, hd, Prod.ext_iff]
          omega
        · simp [bamStep, hq, hrev, ← hp, List.filter_cons, hd, Prod.ext_iff]
          omega
      · have hp2 : ¬ p = (bamPos a : Int) := fun h => hp h.symm
        simp [bamStep, hq, List.filter_cons, hp, hp2]

/-- The forward read of the concrete bam scenario: starts at 100. -/
def fwdRead : AlnRecord := ⟨30, false, 100, some 130⟩

/-- The reverse read of the concrete bam scenario: ends at 200. -/
def revRead : AlnRecord := ⟨20, true, 170, some 200⟩

/-- The concrete alignment file holding the two reads on chr1. -/
def exampleBamFile : AlnFile :=
  fun chrom => if chrom = "chr1" then some [fwdRead, revRead] else none

/-- The store loaded from the concrete bam scenario: genome of one
1000-base chromosome, one sample, min_mapq 0. -/
def exampleBamStore : CovStore Nat :=
  bam_loader [("chr1", 1000)] 0 [exampleBamFile] zeroStore

/-- Per-position counts of the two concrete reads. -/
theorem exampleBam_counts (q : Int) :
    bamCounts 0 [fwdRead, revRead] q =
      ((if q = 100 then 1 else 0), (if q = 199 then 1 else 0)) := by
  rw [bamCounts, bamCounts_foldl]
  simp only [fwdRead, revRead, bamPos, List.filter_cons, List.filter_nil]
  norm_num
  constructor
  · by_cases h : (100 : Int) = q
    · simp [h, eq_comm]
    · have h2 : ¬ q = 100 := fun hh => h hh.symm
      simp [h, h2]
  · by_cases h : (199 : Int) = q
    · simp [h, eq_comm]
    · have h2 : ¬ q = 199 := fun hh => h hh.symm
      simp [h, h2]

/-- C7: the alignment-count loader skips records below the mapping
quality threshold and counts each surviving record once, forward
records at their start position, reverse records at end minus one
(start when the end is undefined); on the concrete scenario of a
1000-base chr1 with one forward read starting at 100 and one reverse
read ending at 200, the loaded store holds 1 at (chr1,+,100), 1 at
(chr1,-,199) and 0 everywhere else. -/
theorem c7_bam_loader :
    (∀ (m : Nat) (recs : List AlnRecord) (p : Int),
      bamCounts m recs p =
        ((recs.filter fun a =>
            decide (m ≤ a.mapq) && !a.is_reverse && decide ((bamPos a : Int) = p)).length,
         (recs.filter fun a =>
            decide (m ≤ a.mapq) && a.is_reverse && decide ((bamPos a : Int) = p)).length)) ∧
    exampleBamStore "chr1" '+' 100 0 = 1 ∧
    exampleBamStore "chr1" '-' 199 0 = 1 ∧
    (∀ (ch : String) (s : Char) (p : Int) (c : Nat),
      ¬(ch = "chr1" ∧ c = 0 ∧ ((s = '+' ∧ p = 100) ∨ (s = '-' ∧ p = 199))) →
      exampleBamStore ch s p c = 0) := by
  have hstore : exampleBamStore =
      storeWrite
        (storeWrite zeroStore "chr1" '+' 0 1000 0
          (fun q => (bamCounts 0 [fwdRead, revRead] q).1))
        "chr1" '-' 0 1000 0
        (fun q => (bamCounts 0 [fwdRead, revRead] q).2) := rfl
  refine ⟨?_, by decide, by decide, ?_⟩
  · intro m recs p
    rw [bamCounts, bamCounts_foldl]
    simp
  · intro ch s p c hn
    rw [hstore]
    simp only [storeWrite]
    split_ifs with h1 h2
    · obtain ⟨hch, hs, hcc, hge, hlt⟩ := h1
      have hp : ¬ (p : Int) = 199 := by
        intro hp
        exact hn ⟨hch, hcc, Or.inr ⟨hs, hp⟩⟩
      rw [show p - (0 : Int) = p by omega, exampleBam_counts, if_neg hp]
    · obtain ⟨hch, hs, hcc, hge, hlt⟩ := h2
      have hp : ¬ (p : Int) = 100 := by
        intro hp
        exact hn ⟨hch, hcc, Or.inl ⟨hs, hp⟩⟩
      rw [show p - (0 : Int) = p by omega, exampleBam_counts, if_neg hp]
    · rfl

/-- Witness for C7: a position carrying no read start stays zero. -/
theorem c7_bam_loader_witness :
    exampleBamStore "chr1" '+' 500 0 = 0 :=
  c7_bam_loader.2.2.2 "chr1" '+' 500 0 (by decide)

/-- The per-file chromosome loop only writes the condition index of
that file: all other condition slots are untouched. -/
theorem bamFileLoad_other_cond (m : Nat) (f : AlnFile) (i : Nat) :
    ∀ (genomesize : List (String × Nat)) (cover : CovStore Nat)
      (ch : String) (s : Char) (p : Int) (c : Nat), c ≠ i →
      bamFileLoad genomesize m f i cover ch s p c = cover ch s p c := by
  intro genomesize
  induction genomesize with
  | nil => intros; rfl
  | cons g rest ih =>
    intro cover ch s p c hc
    obtain ⟨chrom, clen⟩ := g
    rw [show bamFileLoad ((chrom, clen) :: rest) m f i cover =
      bamFileLoad rest m f i
        (match f chrom with
         | none => cover
         | some recs =>
           storeWrite
             (storeWrite cover chrom '+' 0 (clen : Int) i
               (fun p => (bamCounts m recs p).1))
             chrom '-' 0 (clen : Int) i
             (fun p => (bamCounts m recs p).2)) from rfl]
    rw [ih _ ch s p c hc]
    cases hf : f chrom with
    | none => rfl
    | some recs => simp [storeWrite, hc]

/-- A chromosome whose fetch raises ValueError is skipped: the whole
chromosome loop of that file leaves every entry of that chromosome
unchanged. -/
theorem bamFileLoad_absent (m : Nat) (f : AlnFile) (i : Nat) (ch : String)
    (hch : f ch = none) :
    ∀ (genomesize : List (String × Nat)) (cover : CovStore Nat)
      (s : Char) (p : Int) (c : Nat),
      bamFileLoad genomesize m f i cover ch s p c = cover ch s p c := by
  intro genomesize
  induction genomesize with
  | nil => intros; rfl
  | cons g rest ih =>
    intro cover s p c
    obtain ⟨chrom, clen⟩ := g
    rw [show bamFileLoad ((chrom, clen) :: rest) m f i cover =
      bamFileLoad rest m f i
        (match f chrom with
         | none => cover
         | some recs =>
           storeWrite
             (storeWrite cover chrom '+' 0 (clen : Int) i
               (fun p => (bamCounts m recs p).1))
             chrom '-' 0 (clen : Int) i
             (fun p => (bamCounts m recs p).2)) from rfl]
    rw [ih]
    by_cases hcc : chrom = ch
    · subst hcc
      rw [hch]
    · cases hf : f chrom with
      | none => rfl
      | some recs =>
        have hcc2 : ¬ ch = chrom := fun h => hcc h.symm
        simp [storeWrite, hcc2]

/-- The file loop leaves a condition slot of a chromosome unchanged
when every file whose enumeration index is that condition lacks the
chromosome. -/
theorem bamFilesLoad_skip (genomesize : List (String × Nat)) (m : Nat) (ch : String) :
    ∀ (files : List AlnFile) (i : Nat) (cover : CovStore Nat)
      (s : Char) (p : Int) (c : Nat),
      (∀ j f, files[j]? = some f → i + j = c → f ch = none) →
      bamFilesLoad genomesize m files i cover ch s p c = cover ch s p c := by
  intro files
  induction files with
  | nil => intros; rfl
  | cons f rest ih =>
    intro i cover s p c hj
    rw [show bamFilesLoad genomesize m (f :: rest) i cover =
      bamFilesLoad genomesize m rest (i + 1) (bamFileLoad genomesize m f i cover)
      from rfl]
    rw [ih (i + 1) _ s p c ?_]
    · by_cases hci : c = i
      · subst hci
        exact bamFileLoad_absent m f c ch (hj 0 f (by simp) (by omega)) genomesize cover s p c
      · exact bamFileLoad_other_cond m f i genomesize cover ch s p c hci
    · intro j f2 hf2 hic
      exact hj (j + 1) f2 (by simpa using hf2) (by omega)

/-- The single read of the gapped concrete scenario: forward at 3 on
chr1, with an undefined end. -/
def gappyRead : AlnRecord := ⟨7, false, 3, none⟩

/-- The concrete file holding chr1 but lacking chr2. -/
def gappyBamFile : AlnFile :=
  fun chrom => if chrom = "chr1" then some [gappyRead] else none

/-- Store loaded over a genome declaring chr1 and chr2 from the file
that lacks chr2. -/
def exampleSkipStore : CovStore Nat :=
  bam_loader [("chr1", 10), ("chr2", 10)] 0 [gappyBamFile] zeroStore

/-- C9: a chromosome declared in the genome map but absent from an
alignment file is skipped without failing: the loader leaves every
entry of that chromosome for that file at its prior (zero-filled)
value, for any genome, file list and store; and in the concrete
two-chromosome scenario the remaining chromosome is still processed
while all chr2 entries stay zero. -/
theorem c9_absent_chrom_skip :
    (∀ (genomesize : List (String × Nat)) (m : Nat) (files : List AlnFile)
        (cover : CovStore Nat) (k : Nat) (f : AlnFile) (ch : String),
      files[k]? = some f → f ch = none →
      ∀ (s : Char) (p : Int),
        bam_loader genomesize m files cover ch s p k = cover ch s p k) ∧
    exampleSkipStore "chr1" '+' 3 0 = 1 ∧
    (∀ (s : Char) (p : Int) (c : Nat), exampleSkipStore "chr2" s p c = 0) := by
  have hmain : ∀ (genomesize : List (String × Nat)) (m : Nat) (files : List AlnFile)
      (cover : CovStore Nat) (k : Nat) (f : AlnFile) (ch : String),
      files[k]? = some f → f ch = none →
      ∀ (s : Char) (p : Int),
        bam_loader genomesize m files cover ch s p k = cover ch s p k := by
    intro genomesize m files cover k f ch hk hfc s p
    apply bamFilesLoad_skip
    intro j f2 hf2 hic
    have hjk : j = k := by omega
    subst hjk
    rw [hk] at hf2
    cases hf2
    exact hfc
  refine ⟨hmain, by decide, ?_⟩
  · intro s p c
    by_cases hc : c = 0
    · subst hc
      have h0 := hmain [("chr1", 10), ("chr2", 10)] 0 [gappyBamFile] zeroStore 0
        gappyBamFile "chr2" rfl rfl s p
      exact h0
    · have h1 : exampleSkipStore =
          bamFileLoad [("chr1", 10), ("chr2", 10)] 0 gappyBamFile 0 zeroStore := rfl
      rw [h1, bamFileLoad_other_cond 0 gappyBamFile 0 _ zeroStore "chr2" s p c hc]
      rfl

/-- Witness for C9: the chr2 slot of the gapped scenario reads zero
through the general skip law. -/
theorem c9_absent_chrom_skip_witness :
    bam_loader [("chr1", 10), ("chr2", 10)] 0 [gappyBamFile] zeroStore "chr2" '-' 4 0 =
      zeroStore "chr2" '-' 4 0 :=
  c9_absent_chrom_skip.1 [("chr1", 10), ("chr2", 10)] 0 [gappyBamFile] zeroStore 0
    gappyBamFile "chr2" rfl rfl '-' 4

/-- The flat signal of the concrete bigwig scenario: 2 everywhere. -/
def flatBw : BigWigFile := fun _ _ => 2

/-- The single region of the concrete bigwig scenario. -/
def exampleBwIndexer : GenomicIndexer := ⟨100, [⟨"chr1", 50, 150, '.'⟩]⟩

/-- Store loaded by the signal-sum loader from the flat signal. -/
def exampleBwStore : CovStore Rat :=
  bigwig_loader [flatBw] exampleBwIndexer zeroStore

/-- The region loop leaves every entry untouched whose coordinates do
not form the unstranded anchor slot of one of its regions for its
condition index. -/
theorem bigwigRegions_untouched (bw : BigWigFile) (i : Nat) :
    ∀ (ivs : List GenomicInterval) (cover : CovStore Rat)
      (ch : String) (s : Char) (p : Int) (c : Nat),
      (∀ iv ∈ ivs, ¬(ch = iv.chrom ∧ s = '.' ∧ p = iv.start ∧ c = i)) →
      bigwigRegions bw i ivs cover ch s p c = cover ch s p c := by
  intro ivs
  induction ivs with
  | nil => intros; rfl
  | cons iv0 rest ih =>
    intro cover ch s p c hn
    rw [show bigwigRegions bw i (iv0 :: rest) cover =
      bigwigRegions bw i rest
        (storeWrite cover iv0.chrom '.' iv0.start (iv0.start + 1) i
          (fun _ => (bwValues bw iv0.chrom iv0.start iv0.stop).sum)) from rfl]
    rw [ih _ ch s p c (fun iv hiv => hn iv (List.mem_cons_of_mem iv0 hiv))]
    simp only [storeWrite]
    split_ifs with h1
    · obtain ⟨hch, hs, hcc, hge, hlt⟩ := h1
      exact absurd ⟨hch, hs, by omega, hcc⟩ (hn iv0 (List.mem_cons_self iv0 rest))
    · rfl

/-- After the region loop, the anchor slot of a region not shadowed by
a later region with the same anchor holds exactly the signal sum over
that region. -/
theorem bigwigRegions_anchor (bw : BigWigFile) (i : Nat) :
    ∀ (ivs : List GenomicInterval) (cover : CovStore Rat) (j : Nat) (iv : GenomicInterval),
      ivs[j]? = some iv →
      (∀ (k2 : Nat) (iv2 : GenomicInterval), ivs[k2]? = some iv2 → j < k2 →
        ¬(iv2.chrom = iv.chrom ∧ iv2.start = iv.start)) →
      bigwigRegions bw i ivs cover iv.chrom '.' iv.start i =
        (bwValues bw iv.chrom iv.start iv.stop).sum := by
  intro ivs
  induction ivs with
  | nil =>
    intro cover j iv hj
    simp at hj
  | cons iv0 rest ih =>
    intro cover j iv hj hlater
    rw [show bigwigRegions bw i (iv0 :: rest) cover =
      bigwigRegions bw i rest
        (storeWrite cover iv0.chrom '.' iv0.start (iv0.start + 1) i
          (fun _ => (bwValues bw iv0.chrom iv0.start iv0.stop).sum)) from rfl]
    cases j with
    | zero =>
      have hiv : iv0 = iv := by simpa using hj
      subst hiv
      have hres : ∀ iv2 ∈ rest,
          ¬(iv0.chrom = iv2.chrom ∧ ('.' : Char) = '.' ∧ iv0.start = iv2.start ∧ i = i) := by
        intro iv2 hiv2 hcon
        obtain ⟨k2, hk2⟩ : ∃ k2 : Nat, rest[k2]? = some iv2 :=
          List.mem_iff_getElem?.mp hiv2
        obtain ⟨hch, _, hst, _⟩ := hcon
        exact hlater (k2 + 1) iv2 (by simpa using hk2) (Nat.succ_pos k2)
          ⟨hch.symm, hst.symm⟩
      rw [bigwigRegions_untouched bw i rest
        (storeWrite cover iv0.chrom '.' iv0.start (iv0.start + 1) i
          (fun _ => (bwValues bw iv0.chrom iv0.start iv0.stop).sum))
        iv0.chrom '.' iv0.start i hres]
      simp [storeWrite, Int.lt_add_one_iff]
    | succ k =>
      have hj2 : rest[k]? = some iv := by simpa using hj
      apply ih _ k iv hj2
      intro k2 iv2 h2 hk2
      exact hlater (k2 + 1) iv2 (by simpa using h2) (by omega)

/-- The file loop leaves every non-anchor entry untouched, for every
condition. -/
theorem bigwigFilesLoad_untouched :
    ∀ (files : List BigWigFile) (i0 : Nat) (gi : GenomicIndexer) (cover : CovStore Rat)
      (ch : String) (s : Char) (p : Int) (c : Nat),
      (∀ iv ∈ gi.intervals, ¬(ch = iv.chrom ∧ s = '.' ∧ p = iv.start)) →
      bigwigFilesLoad files i0 gi cover ch s p c = cover ch s p c := by
  intro files
  induction files with
  | nil => intros; rfl
  | cons bw rest ih =>
    intro i0 gi cover ch s p c hn
    rw [show bigwigFilesLoad (bw :: rest) i0 gi cover =
      bigwigFilesLoad rest (i0 + 1) gi (bigwigRegions bw i0 gi.intervals cover) from rfl]
    rw [ih (i0 + 1) gi _ ch s p c hn]
    exact bigwigRegions_untouched bw i0 gi.intervals cover ch s p c
      (fun iv hiv hcon => hn iv hiv ⟨hcon.1, hcon.2.1, hcon.2.2.1⟩)

/-- The file loop never writes a condition index below its running
enumeration index. -/
theorem bigwigFilesLoad_low_cond :
    ∀ (files : List BigWigFile) (i0 : Nat) (gi : GenomicIndexer) (cover : CovStore Rat)
      (ch : String) (s : Char) (p : Int) (c : Nat), c < i0 →
      bigwigFilesLoad files i0 gi cover ch s p c = cover ch s p c := by
  intro files
  induction files with
  | nil => intros; rfl
  | cons bw rest ih =>
    intro i0 gi cover ch s p c hc
    rw [show bigwigFilesLoad (bw :: rest) i0 gi cover =
      bigwigFilesLoad rest (i0 + 1) gi (bigwigRegions bw i0 gi.intervals cover) from rfl]
    rw [ih (i0 + 1) gi _ ch s p c (by omega)]
    exact bigwigRegions_untouched bw i0 gi.intervals cover ch s p c
      (fun iv hiv hcon => absurd hcon.2.2.2 (by omega))

/-- After the whole file loop, the anchor slot of any unshadowed
region, for the condition of any file of the enumeration, holds the
signal sum of that file over that region. -/
theorem bigwigFilesLoad_anchor :
    ∀ (files : List BigWigFile) (i0 : Nat) (gi : GenomicIndexer) (cover : CovStore Rat)
      (k : Nat) (bw : BigWigFile) (j : Nat) (iv : GenomicInterval),
      files[k]? = some bw →
      gi.intervals[j]? = some iv →
      (∀ (k2 : Nat) (iv2 : GenomicInterval), gi.intervals[k2]? = some iv2 → j < k2 →
        ¬(iv2.chrom = iv.chrom ∧ iv2.start = iv.start)) →
      bigwigFilesLoad files i0 gi cover iv.chrom '.' iv.start (i0 + k) =
        (bwValues bw iv.chrom iv.start iv.stop).sum := by
  intro files
  induction files with
  | nil =>
    intro i0 gi cover k bw j iv hk
    simp at hk
  | cons bw0 rest ih =>
    intro i0 gi cover k bw j iv hk hj hlater
    rw [show bigwigFilesLoad (bw0 :: rest) i0 gi cover =
      bigwigFilesLoad rest (i0 + 1) gi (bigwigRegions bw0 i0 gi.intervals cover) from rfl]
    cases k with
    | zero =>
      have hbw : bw0 = bw := by simpa using hk
      subst hbw
      rw [bigwigFilesLoad_low_cond rest (i0 + 1) gi _ iv.chrom '.' iv.start (i0 + 0)
        (by omega)]
      exact bigwigRegions_anchor bw0 i0 gi.intervals cover j iv hj hlater
    | succ k =>
      have hk2 : rest[k]? = some bw := by simpa using hk
      rw [show i0 + (k + 1) = (i0 + 1) + k by omega]
      exact ih (i0 + 1) gi _ k bw j iv hk2 hj hlater

/-- C8: for every file list and every region enumeration, the
signal-sum loader writes, per file and per region, exactly one scalar
into the unstranded slot at the region anchor (the region start),
equal to the sum of the signal over the exact region coordinates
(stated for regions not shadowed by a later region with the same
anchor, which a later write would overwrite), and touches nothing
else; on the concrete scenario of a flat signal of 2 over the region
from 50 to 150 the stored scalar is 200. -/
theorem c8_bigwig_loader :
    (∀ (files : List BigWigFile) (gi : GenomicIndexer) (cover : CovStore Rat)
        (k : Nat) (bw : BigWigFile) (j : Nat) (iv : GenomicInterval),
      files[k]? = some bw → gi.intervals[j]? = some iv →
      (∀ (k2 : Nat) (iv2 : GenomicInterval), gi.intervals[k2]? = some iv2 → j < k2 →
        ¬(iv2.chrom = iv.chrom ∧ iv2.start = iv.start)) →
      bigwig_loader files gi cover iv.chrom '.' iv.start k =
        (bwValues bw iv.chrom iv.start iv.stop).sum) ∧
    (∀ (files : List BigWigFile) (gi : GenomicIndexer) (cover : CovStore Rat)
        (ch : String) (s : Char) (p : Int) (c : Nat),
      (∀ iv ∈ gi.intervals, ¬(ch = iv.chrom ∧ s = '.' ∧ p = iv.start)) →
      bigwig_loader files gi cover ch s p c = cover ch s p c) ∧
    exampleBwStore "chr1" '.' 50 0 = 200 := by
  refine ⟨?_, ?_, ?_⟩
  · intro files gi cover k bw j iv hk hj hlater
    have h := bigwigFilesLoad_anchor files 0 gi cover k bw j iv hk hj hlater
    simpa using h
  · intro files gi cover ch s p c hn
    exact bigwigFilesLoad_untouched files 0 gi cover ch s p c hn
  · have hconst : ∀ (n : Nat), ((List.range n).map fun _ => (2 : Rat)).sum = n * 2 := by
      intro n
      induction n with
      | zero => simp
      | succ k ih =>
        rw [List.range_succ, List.map_append, List.sum_append, ih]
        push_cast
        ring_nf
        simp
        ring
    have hno : ∀ (k2 : Nat) (iv2 : GenomicInterval),
        exampleBwIndexer.intervals[k2]? = some iv2 → 0 < k2 →
        ¬(iv2.chrom = (GenomicInterval.mk "chr1" 50 150 '.').chrom ∧
          iv2.start = (GenomicInterval.mk "chr1" 50 150 '.').start) := by
      intro k2 iv2 h2 hk2
      obtain ⟨m, rfl⟩ : ∃ m, k2 = m + 1 := ⟨k2 - 1, by omega⟩
      simp [exampleBwIndexer] at h2
    have h2 := bigwigFilesLoad_anchor [flatBw] 0 exampleBwIndexer zeroStore 0 flatBw 0
      (GenomicInterval.mk "chr1" 50 150 '.') (by simp) (by simp [exampleBwIndexer]) hno
    have h3 : exampleBwStore "chr1" '.' 50 0 =
        (bwValues flatBw "chr1" 50 150).sum := by simpa using h2
    rw [h3]
    show ((List.range 100).map fun _ => (2 : Rat)).sum = 200
    rw [hconst 100]
    norm_num

/-- The position-valued signal of the two-file witness scenario. -/
def posBw : BigWigFile := fun _ p => (p : Rat)

/-- Two-region enumeration for the witness, distinct anchors. -/
def twoRegionIndexer : GenomicIndexer :=
  ⟨50, [⟨"chr1", 50, 150, '.'⟩, ⟨"chr1", 300, 350, '.'⟩]⟩

/-- Witness for C8 on a two-file, two-region configuration: the second
region of the second file gets its own signal sum, and a non-anchor
entry keeps its prior value. -/
theorem c8_bigwig_loader_witness :
    bigwig_loader [flatBw, posBw] twoRegionIndexer zeroStore "chr1" '.' 300 1 =
      (bwValues posBw "chr1" 300 350).sum ∧
    bigwig_loader [flatBw, posBw] twoRegionIndexer zeroStore "chr2" '.' 50 0 =
      zeroStore "chr2" '.' 50 0 := by
  constructor
  · have h := c8_bigwig_loader.1 [flatBw, posBw] twoRegionIndexer zeroStore 1 posBw 1
      (GenomicInterval.mk "chr1" 300 350 '.') (by simp) (by simp [twoRegionIndexer]) ?_
    · simpa using h
    · intro k2 iv2 h2 hk2
      obtain ⟨m, rfl⟩ : ∃ m, k2 = m + 2 := ⟨k2 - 2, by omega⟩
      simp [twoRegionIndexer] at h2
  · exact c8_bigwig_loader.2.1 [flatBw, posBw] twoRegionIndexer zeroStore
      "chr2" '.' 50 0 (by decide)
